import Mathlib

/-!
Shallow embedding of the mcprism gateway prototype
(src/apps/gateway/src/index.ts and the populate script) together with
proofs about its catalog, search, schema-fetch, execute and
embedder-initialization behaviour.

Conventions of the embedding:
* SQLite rows of the tools table become the structure ToolRow; the
  autoincrement id column is omitted because no handler output or claim
  reads it (searchTools selects it and discards it).
* JavaScript numbers are modelled as rationals; the external similarity
  function cos_sim of the xenova transformers library and the external
  embedding model are parameters of the definitions that call them.
* JSON.stringify and JSON.parse are modelled by an executable printer and
  parser over a JSON fragment (strings, booleans, arrays, objects) that
  covers every schema document of this repository; the round trip is
  proved, not assumed.
* JavaScript Array.prototype.sort with the comparator
  (a, b) => b.similarity - a.similarity is modelled as the stable
  insertion sort List.insertionSort simGe: the ECMAScript specification
  requires sort to be stable, and for a consistent comparator every
  stable sort computes the same unique stable descending reordering.
-/

namespace Mcprism

/-! ## JSON values, printer and parser (model of JSON.stringify / JSON.parse) -/

mutual

/-- A JSON value of the fragment used by the tool schemas of this
repository: strings, booleans, arrays and objects.  Strings are lists of
characters to keep character-level reasoning direct. -/
inductive Json where
| str : List Char → Json
| bool : Bool → Json
| arr : JsonList → Json
| obj : JsonFields → Json

/-- A list of JSON values (array elements). -/
inductive JsonList where
| nil : JsonList
| cons : Json → JsonList → JsonList

/-- Key-value fields of a JSON object, in order. -/
inductive JsonFields where
| nil : JsonFields
| cons : List Char → Json → JsonFields → JsonFields

end

deriving instance DecidableEq for Json

/-- The opening-brace character of JSON object syntax. -/
def lbraceC : Char := Char.ofNat 123

/-- The closing-brace character of JSON object syntax. -/
def rbraceC : Char := Char.ofNat 125

/-- Escape one character the way JSON.stringify escapes string contents:
a quote or a backslash is preceded by a backslash, every other character
is emitted verbatim. -/
def escChar (c : Char) : List Char :=
  if c = '"' ∨ c = '\\' then ['\\', c] else [c]

/-- Escape a whole string body. -/
def escapeChars : List Char → List Char
| [] => []
| c :: cs => escChar c ++ escapeChars cs

mutual

/-- Serialized characters of a JSON value (model of JSON.stringify,
which prints compactly, with no whitespace). -/
def jsonChars : Json → List Char
| .str s => '"' :: (escapeChars s ++ ['"'])
| .bool true => ['t', 'r', 'u', 'e']
| .bool false => ['f', 'a', 'l', 's', 'e']
| .arr xs => '[' :: (arrChars xs ++ [']'])
| .obj fs => lbraceC :: (objChars fs ++ [rbraceC])

/-- Comma-separated serialized array elements, without the brackets. -/
def arrChars : JsonList → List Char
| .nil => []
| .cons v .nil => jsonChars v
| .cons v (.cons w vs) => jsonChars v ++ ',' :: arrChars (.cons w vs)

/-- Comma-separated serialized object fields, without the braces. -/
def objChars : JsonFields → List Char
| .nil => []
| .cons k v .nil => '"' :: (escapeChars k ++ '"' :: ':' :: jsonChars v)
| .cons k v (.cons k2 v2 fs) =>
    ('"' :: (escapeChars k ++ '"' :: ':' :: jsonChars v)) ++
      ',' :: objChars (.cons k2 v2 fs)

end

/-- Parse the body of a JSON string after its opening quote, undoing
escChar; returns the decoded characters and the input remaining after the
closing quote.  The Bool is true directly after a backslash, where the
next character is taken verbatim. -/
def parseStrB : Bool → List Char → Option (List Char × List Char)
| _, [] => none
| true, d :: r => (parseStrB false r).map fun p => (d :: p.1, p.2)
| false, c :: r =>
    if c = '"' then some ([], r)
    else if c = '\\' then parseStrB true r
    else (parseStrB false r).map fun p => (c :: p.1, p.2)

mutual

/-- Fuel-bounded parser for one JSON value; returns the value and the
unconsumed remainder of the input. -/
def parseVal : Nat → List Char → Option (Json × List Char)
| 0, _ => none
| _ + 1, [] => none
| fuel + 1, c :: rest =>
    if c = '"' then (parseStrB false rest).map fun p => (Json.str p.1, p.2)
    else if c = 't' then
      if rest.take 3 = ['r', 'u', 'e'] then some (Json.bool true, rest.drop 3)
      else none
    else if c = 'f' then
      if rest.take 4 = ['a', 'l', 's', 'e'] then some (Json.bool false, rest.drop 4)
      else none
    else if c = '[' then (parseArrItems fuel rest).map fun p => (Json.arr p.1, p.2)
    else if c = lbraceC then (parseObjItems fuel rest).map fun p => (Json.obj p.1, p.2)
    else none

/-- Parse the items of a JSON array after the opening bracket, consuming
the closing bracket. -/
def parseArrItems : Nat → List Char → Option (JsonList × List Char)
| 0, _ => none
| fuel + 1, cs =>
    (parseVal fuel cs).elim
      (if cs.head? = some ']' then some (.nil, cs.tail) else none)
      (fun vr => arrAfterVal fuel vr.1 vr.2)

/-- Continue an array parse after one element: a comma continues, a
closing bracket ends the array. -/
def arrAfterVal : Nat → Json → List Char → Option (JsonList × List Char)
| 0, _, _ => none
| _ + 1, _, [] => none
| fuel + 1, v, c :: r2 =>
    if c = ',' then (parseArrItems fuel r2).map fun p => (JsonList.cons v p.1, p.2)
    else if c = ']' then some (JsonList.cons v .nil, r2)
    else none

/-- Parse the fields of a JSON object after the opening brace, consuming
the closing brace. -/
def parseObjItems : Nat → List Char → Option (JsonFields × List Char)
| 0, _ => none
| _ + 1, [] => none
| fuel + 1, c :: r =>
    if c = rbraceC then some (.nil, r)
    else if c = '"' then (parseStrB false r).bind fun kr => objAfterKey fuel kr.1 kr.2
    else none

/-- Continue an object parse after a field key: expect a colon, then the
field value. -/
def objAfterKey : Nat → List Char → List Char → Option (JsonFields × List Char)
| 0, _, _ => none
| _ + 1, _, [] => none
| fuel + 1, k, c :: r3 =>
    if c = ':' then (parseVal fuel r3).bind fun vr => objAfterVal fuel k vr.1 vr.2
    else none

/-- Continue an object parse after a field value: a comma continues, a
closing brace ends the object. -/
def objAfterVal : Nat → List Char → Json → List Char → Option (JsonFields × List Char)
| 0, _, _, _ => none
| _ + 1, _, _, [] => none
| fuel + 1, k, v, c2 :: r5 =>
    if c2 = ',' then (parseObjItems fuel r5).map fun p => (JsonFields.cons k v p.1, p.2)
    else if c2 = rbraceC then some (JsonFields.cons k v .nil, r5)
    else none

end

mutual

/-- Fuel sufficient for parseVal to parse the printed form of a value. -/
def jfuel : Json → Nat
| .str _ => 1
| .bool _ => 1
| .arr xs => 1 + afuel xs
| .obj fs => 1 + ofuel fs

/-- Fuel sufficient for parseArrItems on printed array items. -/
def afuel : JsonList → Nat
| .nil => 1
| .cons v vs => 2 + jfuel v + afuel vs

/-- Fuel sufficient for parseObjItems on printed object fields. -/
def ofuel : JsonFields → Nat
| .nil => 1
| .cons _ v fs => 3 + jfuel v + ofuel fs

end

/-- Parsing a string body after the opening quote undoes the printer's
escaping. -/
theorem parseStrBody_escape (s : List Char) :
    ∀ rest, parseStrB false (escapeChars s ++ '"' :: rest) = some (s, rest) := by
  induction s with
  | nil =>
    intro rest
    rfl
  | cons c cs ih =>
    intro rest
    by_cases hc : c = '"' ∨ c = '\\'
    · simp only [escapeChars, escChar, if_pos hc, List.cons_append, List.nil_append]
      rw [parseStrB, if_neg (by decide), if_pos rfl, parseStrB, ih]
      rfl
    · push_neg at hc
      simp only [escapeChars, escChar, if_neg (by tauto : ¬(c = '"' ∨ c = '\\')),
        List.cons_append, List.nil_append]
      rw [parseStrB, if_neg hc.1, if_neg hc.2, ih]
      rfl

/-- The value parser fails on a closing bracket, whatever the fuel. -/
theorem parseVal_rbracket (fuel : Nat) (r : List Char) :
    parseVal fuel (']' :: r) = none := by
  cases fuel with
  | zero => rfl
  | succ f => rfl

mutual

/-- Parsing the printed form of a JSON value returns the value and the
trailing input, for any sufficient fuel. -/
theorem rtVal (j : Json) :
    ∀ fuel rest, jfuel j ≤ fuel →
      parseVal fuel (jsonChars j ++ rest) = some (j, rest) := by
  cases j with
  | str s =>
    intro fuel rest h
    obtain ⟨f, rfl⟩ : ∃ f, fuel = f + 1 := ⟨fuel - 1, by simp [jfuel] at h; omega⟩
    simp only [jsonChars, List.cons_append, List.append_assoc, List.singleton_append,
      List.nil_append]
    rw [parseVal, if_pos rfl, parseStrBody_escape]
    rfl
  | bool b =>
    intro fuel rest h
    obtain ⟨f, rfl⟩ : ∃ f, fuel = f + 1 := ⟨fuel - 1, by simp [jfuel] at h; omega⟩
    cases b with
    | true => rfl
    | false => rfl
  | arr xs =>
    intro fuel rest h
    rw [jfuel] at h
    obtain ⟨f, rfl⟩ : ∃ f, fuel = f + 1 := ⟨fuel - 1, by omega⟩
    simp only [jsonChars, List.cons_append, List.append_assoc, List.singleton_append,
      List.nil_append]
    rw [parseVal, if_neg (by decide), if_neg (by decide), if_neg (by decide),
      if_pos rfl, rtArr xs f rest (by omega)]
    rfl
  | obj fs =>
    intro fuel rest h
    rw [jfuel] at h
    obtain ⟨f, rfl⟩ : ∃ f, fuel = f + 1 := ⟨fuel - 1, by omega⟩
    simp only [jsonChars, List.cons_append, List.append_assoc, List.singleton_append,
      List.nil_append]
    rw [parseVal, if_neg (by decide), if_neg (by decide), if_neg (by decide),
      if_neg (by decide), if_pos rfl, rtObj fs f rest (by omega)]
    rfl

/-- Parsing the printed items of a JSON array (followed by the closing
bracket) returns the items, for any sufficient fuel. -/
theorem rtArr (xs : JsonList) :
    ∀ fuel rest, afuel xs ≤ fuel →
      parseArrItems fuel (arrChars xs ++ ']' :: rest) = some (xs, rest) := by
  cases xs with
  | nil =>
    intro fuel rest h
    obtain ⟨f, rfl⟩ : ∃ f, fuel = f + 1 := ⟨fuel - 1, by simp [afuel] at h; omega⟩
    rw [arrChars, List.nil_append, parseArrItems, parseVal_rbracket]
    rfl
  | cons v vs =>
    intro fuel rest h
    rw [afuel] at h
    obtain ⟨f, rfl⟩ : ∃ f, fuel = f + 2 := ⟨fuel - 2, by omega⟩
    cases vs with
    | nil =>
      rw [arrChars, show f + 2 = (f + 1) + 1 by omega, parseArrItems,
        rtVal v (f + 1) (']' :: rest) (by simp [afuel] at h; omega)]
      rfl
    | cons w ws =>
      rw [arrChars, List.append_assoc, List.cons_append,
        show f + 2 = (f + 1) + 1 by omega, parseArrItems,
        rtVal v (f + 1) (',' :: (arrChars (.cons w ws) ++ ']' :: rest)) (by omega)]
      show (parseArrItems f (arrChars (.cons w ws) ++ ']' :: rest)).map
        (fun p => (JsonList.cons v p.1, p.2)) = some (.cons v (.cons w ws), rest)
      rw [rtArr (.cons w ws) f rest (by omega)]
      rfl

/-- Parsing the printed fields of a JSON object (followed by the closing
brace) returns the fields, for any sufficient fuel. -/
theorem rtObj (fs : JsonFields) :
    ∀ fuel rest, ofuel fs ≤ fuel →
      parseObjItems fuel (objChars fs ++ rbraceC :: rest) = some (fs, rest) := by
  cases fs with
  | nil =>
    intro fuel rest h
    obtain ⟨f, rfl⟩ : ∃ f, fuel = f + 1 := ⟨fuel - 1, by simp [ofuel] at h; omega⟩
    rw [objChars, List.nil_append, parseObjItems, if_pos rfl]
  | cons k v fs' =>
    intro fuel rest h
    rw [ofuel] at h
    obtain ⟨f, rfl⟩ : ∃ f, fuel = f + 3 := ⟨fuel - 3, by omega⟩
    cases fs' with
    | nil =>
      simp only [objChars, List.cons_append, List.append_assoc]
      rw [show f + 3 = (f + 2) + 1 by omega, parseObjItems, if_neg (by decide),
        if_pos rfl, parseStrBody_escape]
      show objAfterKey (f + 2) k (':' :: (jsonChars v ++ rbraceC :: rest)) =
        some (.cons k v .nil, rest)
      rw [show f + 2 = (f + 1) + 1 by omega, objAfterKey, if_pos rfl,
        rtVal v (f + 1) (rbraceC :: rest) (by simp [ofuel] at h; omega)]
      rfl
    | cons k2 v2 fs2 =>
      simp only [objChars, List.cons_append, List.append_assoc]
      rw [show f + 3 = (f + 2) + 1 by omega, parseObjItems, if_neg (by decide),
        if_pos rfl, parseStrBody_escape]
      show objAfterKey (f + 2) k
          (':' :: (jsonChars v ++ ',' :: (objChars (.cons k2 v2 fs2) ++ rbraceC :: rest))) =
        some (.cons k v (.cons k2 v2 fs2), rest)
      rw [show f + 2 = (f + 1) + 1 by omega, objAfterKey, if_pos rfl,
        rtVal v (f + 1) (',' :: (objChars (.cons k2 v2 fs2) ++ rbraceC :: rest)) (by omega)]
      show (parseObjItems f (objChars (.cons k2 v2 fs2) ++ rbraceC :: rest)).map
        (fun p => (JsonFields.cons k v p.1, p.2)) = some (.cons k v (.cons k2 v2 fs2), rest)
      rw [rtObj (.cons k2 v2 fs2) f rest (by omega)]
      rfl

end

mutual

/-- The fuel needed for a value is dominated by the printed length. -/
theorem jfuel_le (j : Json) : jfuel j ≤ 3 * (jsonChars j).length := by
  cases j with
  | str s => simp [jfuel, jsonChars]; omega
  | bool b => cases b <;> simp [jfuel, jsonChars]
  | arr xs =>
    have := afuel_le xs
    simp only [jfuel, jsonChars, List.length_cons, List.length_append,
      List.length_singleton]
    omega
  | obj fs =>
    have := ofuel_le fs
    simp only [jfuel, jsonChars, List.length_cons, List.length_append,
      List.length_singleton]
    omega

/-- The fuel needed for array items is dominated by the printed length. -/
theorem afuel_le (xs : JsonList) : afuel xs ≤ 3 * (arrChars xs).length + 3 := by
  cases xs with
  | nil => simp [afuel, arrChars]
  | cons v vs =>
    have hv := jfuel_le v
    cases vs with
    | nil =>
      simp only [afuel, arrChars]
      omega
    | cons w ws =>
      have hw := afuel_le (.cons w ws)
      simp only [afuel, arrChars, List.length_append, List.length_cons] at *
      omega

/-- The fuel needed for object fields is dominated by the printed length. -/
theorem ofuel_le (fs : JsonFields) : ofuel fs ≤ 3 * (objChars fs).length + 3 := by
  cases fs with
  | nil => simp [ofuel, objChars]
  | cons k v fs' =>
    have hv := jfuel_le v
    cases fs' with
    | nil =>
      simp only [ofuel, objChars, List.length_cons, List.length_append]
      omega
    | cons k2 v2 fs2 =>
      have hw := ofuel_le (.cons k2 v2 fs2)
      simp only [ofuel, objChars, List.length_append, List.length_cons] at *
      omega

end

/-- Model of JSON.stringify on the embedded JSON fragment. -/
def stringifyJson (j : Json) : String := String.mk (jsonChars j)

/-- Model of JSON.parse (returning none where JSON.parse would throw):
run the fuel-bounded parser with ample fuel and require the whole input
to be consumed. -/
def parseJson (s : String) : Option Json :=
  match parseVal (3 * s.data.length + 3) s.data with
  | some (j, []) => some j
  | _ => none

/-- Shorthand for a JSON string built from a string literal. -/
def jstr (s : String) : Json := .str s.data

/-- JSON.parse inverts JSON.stringify on the embedded fragment: the model
of the library round trip used by the schema-fetch path. -/
theorem parseJson_stringifyJson (j : Json) : parseJson (stringifyJson j) = some j := by
  have hb : jfuel j ≤ 3 * (jsonChars j).length + 3 := by
    have := jfuel_le j
    omega
  have h := rtVal j (3 * (jsonChars j).length + 3) [] hb
  rw [List.append_nil] at h
  rw [parseJson, stringifyJson]
  simp only [String.data]
  rw [h]

/-! ## The tools table, the gateway handlers and the populate script -/

/-- One row of the SQLite tools table (columns in schema order; the
autoincrement id is omitted, see the header).  The embedding BLOB is the
stored vector, modelled over the rationals. -/
structure ToolRow where
  name : String
  description : String
  server : String
  category : Option String
  input_schema : String
  embedding : List ℚ
deriving DecidableEq

/-- One entry of the POST /search response: exactly the five fields the
searchTools result object literal carries. -/
structure SearchEntry where
  name : String
  description : String
  server : String
  category : Option String
  similarity : ℚ
deriving DecidableEq

/-- One entry of the GET /tools response: the four selected columns. -/
structure MetaEntry where
  name : String
  description : String
  server : String
  category : Option String
deriving DecidableEq

/-- Strict codepoint-lexicographic comparison of character lists; for
UTF-8 encoded text this is the byte-lexicographic order SQLite's BINARY
collation uses on TEXT. -/
def charsLt : List Char → List Char → Bool
| [], [] => false
| [], _ :: _ => true
| _ :: _, [] => false
| a :: as, b :: bs =>
    if a.val < b.val then true
    else if b.val < a.val then false
    else charsLt as bs

/-- Strict string comparison via charsLt. -/
def strLtB (a b : String) : Bool := charsLt a.data b.data

/-- The search result ordering relation: a may precede b when b's
similarity does not exceed a's (the comparator
(a, b) => b.similarity - a.similarity sorts descending). -/
def simGe (a b : SearchEntry) : Prop := b.similarity ≤ a.similarity

instance : DecidableRel simGe := fun a b =>
  inferInstanceAs (Decidable (b.similarity ≤ a.similarity))

instance : IsTotal SearchEntry simGe := ⟨fun a b => le_total b.similarity a.similarity⟩

instance : IsTrans SearchEntry simGe := ⟨fun _ _ _ h1 h2 => le_trans h2 h1⟩

/-- The ORDER BY server, name ordering of the GET /tools query. -/
def rowLe (a b : ToolRow) : Prop :=
  strLtB a.server b.server = true ∨ (a.server = b.server ∧ strLtB b.name a.name = false)

instance : DecidableRel rowLe := fun a b => by unfold rowLe; infer_instance

/-- JavaScript Array.prototype.slice(0, limit): a nonnegative limit keeps
the first limit elements, a negative limit drops the last -limit. -/
def jsSlice0 (limit : Int) (l : List α) : List α :=
  if 0 ≤ limit then l.take limit.toNat else l.take (l.length + limit).toNat

/-- The result object searchTools builds for one row: the four metadata
columns plus the cosine similarity of the query embedding and the stored
embedding.  The external cos_sim function is the parameter sim. -/
def searchEntry (sim : List ℚ → List ℚ → ℚ) (queryEmbedding : List ℚ)
    (t : ToolRow) : SearchEntry :=
  ⟨t.name, t.description, t.server, t.category, sim queryEmbedding t.embedding⟩

/-- The searchTools function of the gateway: map every stored row to a
result entry, sort by the descending-similarity comparator (stable, as
ECMAScript requires of Array.prototype.sort), and slice(0, limit).
Every row participates; there is no dimension check and no tie-break
beyond the stable order. -/
def searchTools (sim : List ℚ → List ℚ → ℚ) (db : List ToolRow)
    (queryEmbedding : List ℚ) (limit : Int := 5) : List SearchEntry :=
  jsSlice0 limit (List.insertionSort simGe (db.map (searchEntry sim queryEmbedding)))

/-- The four-column projection of the GET /tools SELECT. -/
def metaEntry (t : ToolRow) : MetaEntry := ⟨t.name, t.description, t.server, t.category⟩

/-- The GET /tools query: all rows, ORDER BY server, name, projected to
the four metadata columns. -/
def listTools (db : List ToolRow) : List MetaEntry :=
  (List.insertionSort rowLe db).map metaEntry

/-- The GET /tools route handler.  The route callback reads no request
parameters at all, so the two Option arguments — a backend filter and a
category filter a client might supply — are ignored. -/
def listToolsHandler (_filterBackend _filterCategory : Option String)
    (db : List ToolRow) : List MetaEntry :=
  listTools db

/-- The POST /search response: either the error object or the ranked
tools list. -/
inductive SearchResponse where
| err : String → SearchResponse
| ok : List SearchEntry → SearchResponse
deriving DecidableEq

/-- The POST /search route handler: the limit field defaults to 5 when
absent, a missing or empty (JavaScript-falsy) query is rejected, and the
embedded query is handed to searchTools with the limit as given — there
is no limit validation.  The external embedding pipeline is the
parameter embed. -/
def searchHandler (sim : List ℚ → List ℚ → ℚ) (embed : String → List ℚ)
    (query : Option String) (limit : Option Int) (db : List ToolRow) : SearchResponse :=
  match query with
  | none => .err "Query required"
  | some q =>
      if q = "" then .err "Query required"
      else .ok (searchTools sim db (embed q) (limit.getD 5))

/-- The success body of GET /tool/:name: the spread of the selected row
(name, description, server, category, raw input_schema text) plus the
parsed inputSchema. -/
structure SchemaBody where
  name : String
  description : String
  server : String
  category : Option String
  input_schema : String
  inputSchema : Json
deriving DecidableEq

/-- The GET /tool/:name response: the not-found error object, a thrown
JSON.parse exception (no body is produced), or the success body. -/
inductive SchemaResponse where
| notFound : SchemaResponse
| thrown : SchemaResponse
| ok : SchemaBody → SchemaResponse
deriving DecidableEq

/-- The GET /tool/:name route handler: look the row up by name and
return its spread together with the parsed schema. -/
def getToolHandler (nameParam : String) (db : List ToolRow) : SchemaResponse :=
  match db.find? (fun t => t.name == nameParam) with
  | none => .notFound
  | some t =>
      match parseJson t.input_schema with
      | none => .thrown
      | some j => .ok ⟨t.name, t.description, t.server, t.category, t.input_schema, j⟩

/-- The success body of POST /execute in the prototype. -/
structure ExecOkBody where
  success : Bool
  tool : String
  args : Json
  message : String
  note : String
deriving DecidableEq

/-- The POST /execute response. -/
inductive ExecuteResponse where
| err : String → ExecuteResponse
| ok : ExecOkBody → ExecuteResponse
deriving DecidableEq

/-- JavaScript truthiness of the modelled JSON values: false and the
empty string are falsy. -/
def jsTruthy : Json → Bool
| .bool b => b
| .str s => !s.isEmpty
| .arr _ => true
| .obj _ => true

/-- The constant message field of the mocked execute success body. -/
def execMessage : String :=
  "POC: Tool execution would happen here. In production, this would forward to the actual MCP server."

/-- The constant note field of the mocked execute success body. -/
def execNote : String :=
  "To implement: Forward request to MCP server based on tool.server field"

/-- The POST /execute route handler of the prototype: after the
presence/truthiness check of tool and args it returns the mocked success
body.  It takes no catalog and no backend argument because the code
consults neither. -/
def executeHandler (tool : Option String) (args : Option Json) : ExecuteResponse :=
  match tool, args with
  | some t, some a =>
      if t = "" then .err "Tool and args required"
      else if jsTruthy a = false then .err "Tool and args required"
      else .ok ⟨true, t, a, execMessage, execNote⟩
  | _, _ => .err "Tool and args required"

/-- INSERT OR REPLACE keyed by the UNIQUE name column: the conflicting
row, if any, is deleted and the new row inserted. -/
def upsertTool (r : ToolRow) (db : List ToolRow) : List ToolRow :=
  db.filter (fun t => !(t.name == r.name)) ++ [r]

/-- One entry of the populate script's SAMPLE_TOOLS array. -/
structure SampleTool where
  name : String
  description : String
  server : String
  category : Option String
  inputSchema : Json

/-- The row the populate script builds for one sample tool: the schema
is stringified into the TEXT column and the embedding is computed from
name, a space, and description. -/
def populateRow (embed : String → List ℚ) (tool : SampleTool) : ToolRow :=
  ⟨tool.name, tool.description, tool.server, tool.category,
    stringifyJson tool.inputSchema,
    embed (tool.name ++ " " ++ tool.description)⟩

/-- One iteration of the populate loop: INSERT OR REPLACE of the built
row. -/
def populateStep (embed : String → List ℚ) (tool : SampleTool)
    (db : List ToolRow) : List ToolRow :=
  upsertTool (populateRow embed tool) db

/-! ## The lazy embedder initialization (getEmbedder) under interleaving -/

/-- Shared state of concurrent getEmbedder callers: the module-level
embedder variable, the number of pipeline initializations started, and
one program counter per caller (0 = at the if-check of the cached
variable, 1 = inside the if-branch suspended at the await of
pipeline(...) — entering the branch is what starts an initialization —
2 = returned). -/
structure EmbedSt where
  embedder : Option Nat
  initCount : Nat
  pcs : List Nat
deriving DecidableEq

/-- One step of caller i: at the check, a set embedder variable means an
immediate return, an unset one means entering the branch and starting a
pipeline initialization; a suspended caller resumes by storing its own
instance and returning. -/
def stepCaller (s : EmbedSt) (i : Nat) : EmbedSt :=
  match s.pcs.get? i with
  | some 0 =>
      match s.embedder with
      | some _ => { s with pcs := s.pcs.set i 2 }
      | none => { s with pcs := s.pcs.set i 1, initCount := s.initCount + 1 }
  | some 1 => { s with embedder := some i, pcs := s.pcs.set i 2 }
  | _ => s

/-- Run an interleaving: the schedule lists which caller steps next. -/
def runSched (sched : List Nat) (s : EmbedSt) : EmbedSt :=
  sched.foldl stepCaller s

/-- The state before any caller has run: unset embedder, no
initializations, n callers at the check. -/
def initialEmbedSt (n : Nat) : EmbedSt := ⟨none, 0, List.replicate n 0⟩

/-! ## Sample data for witnesses and counterexamples -/

/-- A concrete similarity function for witnesses and counterexamples:
1 on equal vectors and 0 otherwise — the values cosine similarity takes
on equal respectively orthogonal unit vectors.  (It avoids rational
arithmetic, whose gcd normalization does not reduce in the kernel.) -/
def simEq (q e : List ℚ) : ℚ := if q = e then 1 else 0

/-- A trivial concrete embedding function for witnesses. -/
def embedOne (_s : String) : List ℚ := [1]

/-- The read_file schema document of the populate script. -/
def readFileSchema : Json :=
  .obj (.cons "type".data (jstr "object")
    (.cons "properties".data
      (.obj (.cons "path".data
        (.obj (.cons "type".data (jstr "string")
          (.cons "description".data (jstr "Absolute path to the file") .nil))) .nil))
      (.cons "required".data (.arr (.cons (jstr "path") .nil)) .nil)))

/-- The read_file entry of SAMPLE_TOOLS. -/
def readFileTool : SampleTool :=
  ⟨"read_file", "Read contents from a file on the local filesystem",
    "filesystem", some "read", readFileSchema⟩

/-- A sample row stored before an equally similar, alphabetically
earlier one. -/
def sampleRowB : ToolRow := ⟨"b", "descB", "srv", some "cat", "x", [1]⟩

/-- A sample row whose name precedes sampleRowB's alphabetically. -/
def sampleRowA : ToolRow := ⟨"a", "descA", "srv", some "cat", "x", [1]⟩

/-- A sample row whose stored embedding has dimension 2. -/
def mismatchRow : ToolRow := ⟨"misfit", "desc", "srv", some "cat", "x", [1, 1]⟩

/-- A sample filesystem-backend row. -/
def fsRow : ToolRow :=
  ⟨"read_file", "Read contents from a file on the local filesystem",
    "filesystem", some "read", "x", [1]⟩

/-- Anything jsSlice0 keeps was in the input list. -/
theorem jsSlice0_subset (limit : Int) (l : List α) : jsSlice0 limit l ⊆ l := by
  rw [jsSlice0]
  split <;> exact List.take_subset _ _

/-! ## Claim theorems -/

/-- Claim C1 (code bug): at the failing input — an execute request for a
tool name that exists in no catalog, with well-formed args — the handler
returns the mocked success body instead of a not-found error.  The
handler takes no catalog and no backend argument because the source
consults neither: the claimed NotFoundError and BackendUnavailableError
paths do not exist. -/
theorem c1_execute_returns_mock_success :
    executeHandler (some "nonexistent_tool") (some (Json.obj .nil)) =
      ExecuteResponse.ok ⟨true, "nonexistent_tool", Json.obj .nil, execMessage, execNote⟩ :=
  rfl

/-- Claim C2 (counterexample): search results are not tie-broken by name
ascending.  Two equally similar rows stored in the order b, a come back
in that stored order, violating the claimed similarity-descending,
name-ascending ordering. -/
theorem c2_counterexample :
    ¬ (∀ (sim : List ℚ → List ℚ → ℚ) (db : List ToolRow) (q : List ℚ) (limit : Int),
        0 < limit →
        (searchTools sim db q limit).Pairwise
          (fun a b => b.similarity < a.similarity ∨
            (b.similarity = a.similarity ∧ strLtB b.name a.name = false))) := by
  intro h
  have hp := h simEq [sampleRowB, sampleRowA] [1] 5 (by decide)
  rw [show searchTools simEq [sampleRowB, sampleRowA] [1] 5 =
      [searchEntry simEq [1] sampleRowB, searchEntry simEq [1] sampleRowA] from by decide] at hp
  have hrel := List.rel_of_pairwise_cons hp (List.mem_singleton_self _)
  exact absurd hrel (by decide)

/-- Claim C2 (amended): for every similarity function, catalog, query
embedding and positive limit, search returns at most limit results in
non-increasing similarity order; ties keep the stored row order (the
sort is stable) rather than being broken by name. -/
theorem c2_search_sorted_truncated (sim : List ℚ → List ℚ → ℚ) (db : List ToolRow)
    (q : List ℚ) (limit : Int) (h : 0 < limit) :
    (searchTools sim db q limit).length ≤ limit.toNat ∧
    (searchTools sim db q limit).Pairwise (fun a b => b.similarity ≤ a.similarity) := by
  constructor
  · rw [searchTools, jsSlice0, if_pos (by omega)]
    exact List.length_take_le _ _
  · have hs : (List.insertionSort simGe (db.map (searchEntry sim q))).Pairwise simGe :=
      List.sorted_insertionSort simGe _
    have hsub : (searchTools sim db q limit).Sublist
        (List.insertionSort simGe (db.map (searchEntry sim q))) := by
      rw [searchTools, jsSlice0, if_pos (by omega)]
      exact List.take_sublist _ _
    exact (List.Pairwise.sublist hsub hs).imp fun hab => hab

/-- Witness for the amended C2 at a concrete two-row catalog and
limit 1. -/
theorem c2_search_sorted_truncated_witness :
    (searchTools simEq [sampleRowB, sampleRowA] [1] 1).length ≤ (1 : Int).toNat ∧
    (searchTools simEq [sampleRowB, sampleRowA] [1] 1).Pairwise
      (fun a b => b.similarity ≤ a.similarity) :=
  c2_search_sorted_truncated simEq [sampleRowB, sampleRowA] [1] 1 (by decide)

/-- Claim C3 (counterexample): a search request with limit 0 is not
rejected with an error — at a concrete input it succeeds with an empty
list. -/
theorem c3_counterexample :
    ¬ (∀ (sim : List ℚ → List ℚ → ℚ) (embed : String → List ℚ) (q : String)
        (limit : Int) (db : List ToolRow), q ≠ "" → limit ≤ 0 →
        ∃ msg, searchHandler sim embed (some q) (some limit) db = SearchResponse.err msg) := by
  intro h
  obtain ⟨msg, hm⟩ := h simEq embedOne "read a file" 0 [] (by decide) (by decide)
  rw [show searchHandler simEq embedOne (some "read a file") (some 0) [] =
      SearchResponse.ok [] from by decide] at hm
  exact SearchResponse.noConfusion hm

/-- Claim C3 (amended): an omitted limit defaults to 5, and limit 0 is
accepted rather than rejected: the request succeeds with the slice(0, 0)
prefix, the empty list. -/
theorem c3_default_limit_no_rejection (sim : List ℚ → List ℚ → ℚ)
    (embed : String → List ℚ) (q : String) (db : List ToolRow) (hq : q ≠ "") :
    searchHandler sim embed (some q) none db = searchHandler sim embed (some q) (some 5) db ∧
    searchHandler sim embed (some q) (some 0) db = SearchResponse.ok [] := by
  refine ⟨?_, ?_⟩
  · simp only [searchHandler, if_neg hq]
    rfl
  · simp only [searchHandler, if_neg hq, searchTools, jsSlice0]
    simp

/-- Witness for the amended C3 at a concrete query. -/
theorem c3_default_limit_no_rejection_witness :
    searchHandler simEq embedOne (some "read a file") none [] =
      searchHandler simEq embedOne (some "read a file") (some 5) [] ∧
    searchHandler simEq embedOne (some "read a file") (some 0) [] = SearchResponse.ok [] :=
  c3_default_limit_no_rejection simEq embedOne "read a file" [] (by decide)

/-- Claim C4 (counterexample): a row whose embedding dimension differs
from the query's is not excluded from the results: with a 2-dimensional
stored embedding and a 3-dimensional query the row's entry is returned. -/
theorem c4_counterexample :
    ¬ (∀ (sim : List ℚ → List ℚ → ℚ) (db : List ToolRow) (q : List ℚ) (limit : Int)
        (e : SearchEntry), e ∈ searchTools sim db q limit →
        ∃ t, t ∈ db ∧ e = searchEntry sim q t ∧ t.embedding.length = q.length) := by
  intro h
  obtain ⟨t, ht, _, hl⟩ := h simEq [mismatchRow] [1, 2, 3] 5
    (searchEntry simEq [1, 2, 3] mismatchRow) (by decide)
  rw [List.mem_singleton] at ht
  subst ht
  exact absurd hl (by decide)

/-- Claim C4 (amended): searchTools applies no dimension check at all —
whenever the limit covers the catalog, the result is a permutation of
one entry per stored row, whatever the embedding dimensions. -/
theorem c4_no_dimension_filter (sim : List ℚ → List ℚ → ℚ) (db : List ToolRow)
    (q : List ℚ) (limit : Int) (h : (db.length : Int) ≤ limit) :
    (searchTools sim db q limit).Perm (db.map (searchEntry sim q)) := by
  have h0 : 0 ≤ limit := le_trans (Int.natCast_nonneg _) h
  rw [searchTools, jsSlice0, if_pos h0]
  have hlen : (List.insertionSort simGe (db.map (searchEntry sim q))).length ≤ limit.toNat := by
    rw [List.length_insertionSort, List.length_map]
    omega
  rw [List.take_of_length_le hlen]
  exact List.perm_insertionSort simGe _

/-- Witness for the amended C4 at the mismatched-dimension catalog. -/
theorem c4_no_dimension_filter_witness :
    (searchTools simEq [mismatchRow] [1, 2, 3] 5).Perm
      ([mismatchRow].map (searchEntry simEq [1, 2, 3])) :=
  c4_no_dimension_filter simEq [mismatchRow] [1, 2, 3] 5 (by decide)

/-- Claim C5 (code bug): under the interleaving in which both callers
pass the if-check of the unset embedder variable before either
assignment runs, two pipeline initializations are started; the
sequential schedule starts exactly one.  This is the failing input
refuting at-most-one initialization under concurrent first use. -/
theorem c5_concurrent_double_init :
    (runSched [0, 1, 0, 1] (initialEmbedSt 2)).initCount = 2 ∧
    (runSched [0, 0, 1, 1] (initialEmbedSt 2)).initCount = 1 := by
  decide

/-- Claim C6: every metadata-listing entry and every search entry is the
projection of a stored row to, respectively, the four fields name,
description, server, category and those four plus similarity — the
response types carry no schema and no embedding field, and each entry is
fully determined by that projection. -/
theorem c6_metadata_only_fields :
    (∀ (db : List ToolRow) (e : MetaEntry), e ∈ listTools db →
        ∃ t ∈ db, e = metaEntry t) ∧
    (∀ (sim : List ℚ → List ℚ → ℚ) (db : List ToolRow) (q : List ℚ) (limit : Int)
        (e : SearchEntry), e ∈ searchTools sim db q limit →
        ∃ t ∈ db, e = searchEntry sim q t) := by
  constructor
  · intro db e he
    rw [listTools] at he
    obtain ⟨t, ht, rfl⟩ := List.mem_map.mp he
    exact ⟨t, (List.perm_insertionSort rowLe db).subset ht, rfl⟩
  · intro sim db q limit e he
    rw [searchTools] at he
    have he2 := jsSlice0_subset _ _ he
    obtain ⟨t, ht, rfl⟩ := List.mem_map.mp ((List.perm_insertionSort simGe _).subset he2)
    exact ⟨t, ht, rfl⟩

/-- Witness for C6 at a one-row catalog. -/
theorem c6_metadata_only_fields_witness :
    (∃ t ∈ [sampleRowA], metaEntry sampleRowA = metaEntry t) ∧
    (∃ t ∈ [sampleRowA], searchEntry simEq [1] sampleRowA = searchEntry simEq [1] t) :=
  ⟨c6_metadata_only_fields.1 [sampleRowA] (metaEntry sampleRowA) (by decide),
    c6_metadata_only_fields.2 simEq [sampleRowA] [1] 5 (searchEntry simEq [1] sampleRowA)
      (by decide)⟩

/-- Claim C7: fetching the schema of a just-upserted tool by its name
returns exactly the upserted inputSchema (the stringify/parse round trip
through the TEXT column is the identity), and fetching a name no stored
row carries returns the not-found response. -/
theorem c7_schema_roundtrip :
    (∀ (embed : String → List ℚ) (tool : SampleTool) (db : List ToolRow),
        getToolHandler tool.name (populateStep embed tool db) =
          SchemaResponse.ok ⟨tool.name, tool.description, tool.server, tool.category,
            stringifyJson tool.inputSchema, tool.inputSchema⟩) ∧
    (∀ (db : List ToolRow) (n : String), (∀ t ∈ db, t.name ≠ n) →
        getToolHandler n db = SchemaResponse.notFound) := by
  constructor
  · intro embed tool db
    have hfind : (populateStep embed tool db).find? (fun t => t.name == tool.name) =
        some (populateRow embed tool) := by
      rw [populateStep, upsertTool, List.find?_append]
      have h1 : (db.filter fun t => !(t.name == (populateRow embed tool).name)).find?
          (fun t => t.name == tool.name) = none := by
        rw [List.find?_eq_none]
        intro x hx
        have hx2 := (List.mem_filter.mp hx).2
        simp only [populateRow, Bool.not_eq_true', beq_eq_false_iff_ne] at hx2
        simp [hx2]
      rw [h1]
      simp [populateRow]
    rw [getToolHandler, hfind]
    simp [populateRow, parseJson_stringifyJson]
  · intro db n hn
    rw [getToolHandler, List.find?_eq_none.mpr]
    intro x hx
    simpa using hn x hx

/-- Witness for C7: populating read_file and fetching it returns its
exact schema; fetching an absent name returns not-found. -/
theorem c7_schema_roundtrip_witness :
    getToolHandler "read_file" (populateStep embedOne readFileTool []) =
      SchemaResponse.ok ⟨"read_file", "Read contents from a file on the local filesystem",
        "filesystem", some "read", stringifyJson readFileSchema, readFileSchema⟩ ∧
    getToolHandler "nonexistent_tool" [] = SchemaResponse.notFound :=
  ⟨c7_schema_roundtrip.1 embedOne readFileTool [],
    c7_schema_roundtrip.2 [] "nonexistent_tool" (by simp)⟩

/-- Claim C8: after upserting a row, exactly one stored row carries its
name — that very row with the newly supplied fields — and name
uniqueness of the catalog is preserved. -/
theorem c8_upsert_unique_name (r : ToolRow) (db : List ToolRow) :
    (upsertTool r db).filter (fun t => t.name == r.name) = [r] ∧
    ((db.map (fun t => t.name)).Nodup → ((upsertTool r db).map (fun t => t.name)).Nodup) := by
  constructor
  · rw [upsertTool, List.filter_append]
    have h1 : (db.filter fun t => !(t.name == r.name)).filter (fun t => t.name == r.name) = [] := by
      rw [List.filter_eq_nil_iff]
      intro a ha
      have ha2 := (List.mem_filter.mp ha).2
      simp only [Bool.not_eq_true', beq_eq_false_iff_ne] at ha2
      simp [ha2]
    rw [h1]
    simp
  · intro hd
    rw [upsertTool, List.map_append]
    refine List.Nodup.append ?_ (by simp) ?_
    · exact hd.sublist (List.Sublist.map _ (List.filter_sublist db))
    · intro a ha hb
      simp only [List.map_cons, List.map_nil, List.mem_singleton] at hb
      obtain ⟨t, ht, rfl⟩ := List.mem_map.mp ha
      have ht2 := (List.mem_filter.mp ht).2
      simp only [Bool.not_eq_true', beq_eq_false_iff_ne] at ht2
      exact ht2 hb

/-- Witness for C8: replacing the sole row of a one-row catalog. -/
theorem c8_upsert_unique_name_witness :
    (upsertTool sampleRowA [sampleRowB]).filter (fun t => t.name == sampleRowA.name) =
      [sampleRowA] ∧
    ((upsertTool sampleRowA [sampleRowB]).map (fun t => t.name)).Nodup :=
  ⟨(c8_upsert_unique_name sampleRowA [sampleRowB]).1,
    (c8_upsert_unique_name sampleRowA [sampleRowB]).2 (by decide)⟩

/-- Claim C9 (counterexample): the metadata listing does not filter: a
request carrying the backend filter github still receives the
filesystem-backend row's entry. -/
theorem c9_counterexample :
    ¬ (∀ (fb fc : Option String) (db : List ToolRow) (e : MetaEntry),
        e ∈ listToolsHandler fb fc db →
        (∀ b, fb = some b → e.server = b) ∧
        (∀ c, fc = some c → e.category = some c)) := by
  intro h
  have hs := (h (some "github") none [fsRow] (metaEntry fsRow) (by decide)).1 "github" rfl
  exact absurd hs (by decide)

/-- Claim C9 (amended): the listing route reads no filter parameters:
whatever backend or category filter is supplied, the response is the
full four-column listing, and every stored row contributes an entry. -/
theorem c9_no_filter (fb fc : Option String) (db : List ToolRow) :
    listToolsHandler fb fc db = listTools db ∧
    ∀ t ∈ db, metaEntry t ∈ listToolsHandler fb fc db := by
  refine ⟨rfl, fun t ht => ?_⟩
  exact List.mem_map_of_mem _ ((List.perm_insertionSort rowLe db).mem_iff.mpr ht)

/-- Witness for the amended C9 at a one-row catalog and a github
filter. -/
theorem c9_no_filter_witness :
    metaEntry fsRow ∈ listToolsHandler (some "github") none [fsRow] :=
  (c9_no_filter (some "github") none [fsRow]).2 fsRow (by decide)

/-- Claim C10: the success body of the schema fetch spreads the stored
row, so alongside the parsed inputSchema it carries the raw stored
schema text as the input_schema field. -/
theorem c10_spread_includes_raw_schema (db : List ToolRow) (n : String) (t : ToolRow)
    (j : Json) (hf : db.find? (fun x => x.name == n) = some t)
    (hp : parseJson t.input_schema = some j) :
    getToolHandler n db =
      SchemaResponse.ok ⟨t.name, t.description, t.server, t.category, t.input_schema, j⟩ := by
  rw [getToolHandler, hf]
  simp [hp]

/-- Witness for C10 at the populated read_file row. -/
theorem c10_spread_includes_raw_schema_witness :
    getToolHandler "read_file" [populateRow embedOne readFileTool] =
      SchemaResponse.ok ⟨"read_file", "Read contents from a file on the local filesystem",
        "filesystem", some "read", stringifyJson readFileSchema, readFileSchema⟩ :=
  c10_spread_includes_raw_schema [populateRow embedOne readFileTool] "read_file"
    (populateRow embedOne readFileTool) readFileSchema (by rfl) (by rfl)

end Mcprism
